import Mathlib

/-!
Shallow embedding of the Bloom filter library `bloomfilter-rs` (src/lib.rs).

The bit store (`bitvec::BitVec`) is modelled as `List Bool`; `usize`/`u64`
are modelled as `Nat` with explicit `% 2^64` where 64-bit wrap-around can
occur.  The external hash primitives (Rust's `DefaultHasher` and the MD5 /
SHA-256 digest functions from the `md5` / `sha2` crates) are pure functions
of their input; they are abstracted as a parameter record `HashModel`, and
everything the repository itself computes on top of them (little-endian byte
encoding, the big-endian byte fold, modulo reduction, the probe palette,
all filter operations) is translated from the source.
-/

/-- Model of the external, deterministic hash primitives used by the code:
`DefaultHasher` (a pure function of a value's structural content, producing
a `u64`), and the MD5 / SHA-256 digest functions, which map a byte string to
a byte string (each output entry is a `u8`, modelled as a `Nat` masked to
`% 256` at the use site). -/
structure HashModel (α : Type) where
  defaultHash : α → Nat
  md5Digest : List Nat → List Nat
  sha256Digest : List Nat → List Nat

/-- `HashAlgorithm` from src/lib.rs: the palette of hashing strategies. -/
inductive HashAlgorithm where
  | Default
  | MD5
  | SHA256
deriving DecidableEq, Repr

/-- `BloomFilterError` from src/lib.rs. -/
inductive BloomFilterError where
  | InvalidSize
  | InvalidHashCount
  | Overflow
deriving DecidableEq, Repr

/-- `u64::to_le_bytes`: the 8 little-endian bytes of a 64-bit value. -/
def leBytes8 (n : Nat) : List Nat :=
  (List.range 8).map fun i => n / 256 ^ i % 256

/-- The byte fold from src/lib.rs lines 77 and 86:
`result.iter().fold(0u64, |acc, &x| (acc << 8) | x as u64)`.
`acc` is a `u64`, so the shift drops the high bits (`% 2^64`); each digest
byte `x` is a `u8` (`% 256`). -/
def foldBytes (bytes : List Nat) : Nat :=
  bytes.foldl (fun acc x => ((acc <<< 8) % 2 ^ 64) ||| x % 256) 0

/-- `hash_with_algorithm` from src/lib.rs lines 60-89.  The `Default` arm is
`DefaultHasher` applied to the value; the `MD5` / `SHA256` arms feed the
little-endian bytes of that intermediate `u64` through the respective digest
and fold the digest bytes into a `u64`. -/
def hash_with_algorithm (H : HashModel α) (obj : α) (algorithm : HashAlgorithm) : Nat :=
  match algorithm with
  | .Default => H.defaultHash obj % 2 ^ 64
  | .MD5 => foldBytes (H.md5Digest (leBytes8 (H.defaultHash obj % 2 ^ 64)))
  | .SHA256 => foldBytes (H.sha256Digest (leBytes8 (H.defaultHash obj % 2 ^ 64)))

/-- `BloomFilter` from src/lib.rs: bit store, per-probe strategy list,
insertion counter (a `u64`). -/
structure BloomFilter (α : Type) where
  buckets : List Bool
  hash_algorithms : List HashAlgorithm
  item_count : Nat
deriving DecidableEq, Repr

namespace BloomFilter

/-- Position `j` of `vec![Default, MD5, SHA256].into_iter().cycle()`
(src/lib.rs lines 116-124). -/
def paletteStrategy (j : Nat) : HashAlgorithm :=
  match j % 3 with
  | 0 => .Default
  | 1 => .MD5
  | _ => .SHA256

/-- `BloomFilter::new` from src/lib.rs lines 107-131. -/
def new (size hash_count : Nat) : Except BloomFilterError (BloomFilter α) :=
  if size = 0 then .error .InvalidSize
  else if hash_count = 0 then .error .InvalidHashCount
  else .ok
    { buckets := List.replicate size false
      hash_algorithms := (List.range hash_count).map paletteStrategy
      item_count := 0 }

/-- `BloomFilter::bloom_hash` from src/lib.rs lines 214-220: the 64-bit hash
(cast to `usize`, an identity on 64-bit targets) reduced modulo
`self.buckets.len()`. -/
def bloom_hash (H : HashModel α) (f : BloomFilter α) (word : α)
    (algorithm : HashAlgorithm) : Nat :=
  hash_with_algorithm H word algorithm % f.buckets.length

/-- One iteration of the loop in `BloomFilter::insert` (src/lib.rs lines
149-152): `self.buckets.set(self.bloom_hash(word, algorithm), true)`.  The
index is recomputed from the current bit store's length, exactly as the
method does on `self`. -/
def insertStep (H : HashModel α) (word : α) (b : List Bool)
    (algorithm : HashAlgorithm) : List Bool :=
  b.set (hash_with_algorithm H word algorithm % b.length) true

/-- `BloomFilter::insert` from src/lib.rs lines 145-154: set one bucket per
configured strategy, then `self.item_count += 1` (a `u64` increment). -/
def insert (H : HashModel α) (f : BloomFilter α) (word : α) : BloomFilter α :=
  { buckets := f.hash_algorithms.foldl (insertStep H word) f.buckets
    hash_algorithms := f.hash_algorithms
    item_count := (f.item_count + 1) % 2 ^ 64 }

/-- `BloomFilter::check` from src/lib.rs lines 172-183: false as soon as one
probed bucket is unoccupied, true when all are occupied. -/
def check (H : HashModel α) (f : BloomFilter α) (word : α) : Bool :=
  f.hash_algorithms.all fun algorithm =>
    f.buckets.getD (bloom_hash H f word algorithm) false

/-- `BloomFilter::clear` from src/lib.rs lines 234-237: `buckets.fill(false)`
and `item_count = 0`. -/
def clear (f : BloomFilter α) : BloomFilter α :=
  { buckets := List.replicate f.buckets.length false
    hash_algorithms := f.hash_algorithms
    item_count := 0 }

/-- `BloomFilter::capacity` from src/lib.rs lines 251-253. -/
def capacity (f : BloomFilter α) : Nat :=
  f.buckets.length

/-- `BloomFilter::len` from src/lib.rs lines 268-270. -/
def len (f : BloomFilter α) : Nat :=
  f.item_count

/-- `BloomFilter::is_empty` from src/lib.rs lines 284-286. -/
def is_empty (f : BloomFilter α) : Bool :=
  f.item_count == 0

/-- `BloomFilter::error_chance` from src/lib.rs lines 198-204, with the
`f32` arithmetic idealised over the reals (casts exact, no rounding).  The
`u64` product `hash_algorithms.len() as u64 * item_count` keeps its 64-bit
wrap-around.  `powf` is real exponentiation (`rpow`). -/
noncomputable def error_chance (f : BloomFilter α) : ℝ :=
  let numerator : ℝ := ((f.hash_algorithms.length * f.item_count) % 2 ^ 64 : ℕ)
  let denominator : ℝ := (f.buckets.length : ℕ)
  let e_exponent : ℝ := (-1 * numerator) / denominator
  (1 - Real.exp e_exponent) ^ (f.hash_algorithms.length : ℝ)

end BloomFilter

deriving instance DecidableEq for Except

/-- A mutating call on a filter: the two operations that change state. -/
inductive Op (α : Type) where
  | insert (v : α)
  | clear
deriving DecidableEq

/-- Apply one mutating call. -/
def applyOp (H : HashModel α) (f : BloomFilter α) : Op α → BloomFilter α
  | .insert v => f.insert H v
  | .clear => f.clear

/-- Apply a sequence of mutating calls, oldest first. -/
def applyOps (H : HashModel α) (f : BloomFilter α) (ops : List (Op α)) :
    BloomFilter α :=
  ops.foldl (applyOp H) f

/-- Whether a mutating call is an insertion. -/
def Op.isInsert : Op α → Bool
  | .insert _ => true
  | .clear => false

/-- A concrete hash model used to evaluate the development on closed
inputs. -/
def trivModel : HashModel Nat :=
  { defaultHash := fun n => n
    md5Digest := fun b => b
    sha256Digest := fun b => b.reverse }

/-- The membership certificate behind `check = true`: every probed bucket of
`v` is occupied. -/
def covered (H : HashModel α) (v : α) (f : BloomFilter α) : Prop :=
  ∀ a ∈ f.hash_algorithms, f.buckets.getD (f.bloom_hash H v a) false = true

namespace BloomFilter

lemma length_insertStep (H : HashModel α) (w : α) (b : List Bool)
    (a : HashAlgorithm) : (insertStep H w b a).length = b.length :=
  List.length_set ..

lemma length_foldl_insertStep (H : HashModel α) (w : α)
    (as : List HashAlgorithm) (b : List Bool) :
    (as.foldl (insertStep H w) b).length = b.length := by
  induction as generalizing b with
  | nil => rfl
  | cons a t ih => rw [List.foldl_cons, ih, length_insertStep]

lemma getD_set_true_of_getD (b : List Bool) (j i : Nat)
    (h : b.getD i false = true) : (b.set j true).getD i false = true := by
  rcases eq_or_ne j i with rfl | hne
  · by_cases hlt : j < b.length
    · simp [List.getD_eq_getElem?_getD, List.getElem?_set_self hlt]
    · rw [List.set_eq_of_length_le (Nat.le_of_not_lt hlt)]
      exact h
  · simpa [List.getD_eq_getElem?_getD, List.getElem?_set_ne hne] using h

lemma getD_foldl_insertStep_of_getD (H : HashModel α) (w : α)
    (as : List HashAlgorithm) (b : List Bool) (i : Nat)
    (h : b.getD i false = true) :
    (as.foldl (insertStep H w) b).getD i false = true := by
  induction as generalizing b with
  | nil => exact h
  | cons a t ih =>
    rw [List.foldl_cons]
    exact ih _ (getD_set_true_of_getD _ _ _ h)

lemma getD_foldl_insertStep_self (H : HashModel α) (w : α)
    (as : List HashAlgorithm) (b : List Bool) (a : HashAlgorithm)
    (hpos : 0 < b.length) (ha : a ∈ as) :
    (as.foldl (insertStep H w) b).getD
      (hash_with_algorithm H w a % b.length) false = true := by
  induction as generalizing b with
  | nil => cases ha
  | cons a0 t ih =>
    rw [List.foldl_cons]
    rcases List.mem_cons.mp ha with rfl | hmem
    · apply getD_foldl_insertStep_of_getD
      have hlt : hash_with_algorithm H w a % b.length < b.length :=
        Nat.mod_lt _ hpos
      simp [insertStep, List.getD_eq_getElem?_getD, List.getElem?_set_self hlt]
    · have hlen : (insertStep H w b a0).length = b.length :=
        length_insertStep ..
      have := ih (insertStep H w b a0) (by rw [hlen]; exact hpos) hmem
      rwa [hlen] at this

lemma buckets_length_insert (H : HashModel α) (f : BloomFilter α) (w : α) :
    (f.insert H w).buckets.length = f.buckets.length :=
  length_foldl_insertStep ..

lemma check_eq_true_iff (H : HashModel α) (f : BloomFilter α) (v : α) :
    f.check H v = true ↔ covered H v f := by
  simp [check, covered]

lemma covered_insert (H : HashModel α) (f : BloomFilter α) (v w : α)
    (h : covered H v f) : covered H v (f.insert H w) := by
  intro a ha
  have ha' : a ∈ f.hash_algorithms := ha
  have hlen := buckets_length_insert H f w
  show (f.insert H w).buckets.getD
    (hash_with_algorithm H v a % (f.insert H w).buckets.length) false = true
  rw [hlen]
  exact getD_foldl_insertStep_of_getD _ _ _ _ _ (h a ha')

lemma covered_insert_self (H : HashModel α) (f : BloomFilter α) (v : α)
    (hpos : 0 < f.buckets.length) : covered H v (f.insert H v) := by
  intro a ha
  have hlen := buckets_length_insert H f v
  show (f.insert H v).buckets.getD
    (hash_with_algorithm H v a % (f.insert H v).buckets.length) false = true
  rw [hlen]
  exact getD_foldl_insertStep_self H v _ _ a hpos ha

lemma covered_applyOps (H : HashModel α) (f : BloomFilter α) (v : α)
    (ops : List (Op α)) (h : covered H v f) (hnc : Op.clear ∉ ops) :
    covered H v (applyOps H f ops) := by
  induction ops generalizing f with
  | nil => exact h
  | cons o t ih =>
    have hne : o ≠ Op.clear := fun he => hnc (he ▸ List.mem_cons_self o t)
    have hnt : Op.clear ∉ t := fun ht => hnc (List.mem_cons_of_mem o ht)
    cases o with
    | insert w =>
      exact ih (f.insert H w) (covered_insert H f v w h) hnt
    | clear => exact absurd rfl hne

lemma new_ok_iff {size k : Nat} {f : BloomFilter α} :
    new size k = .ok f ↔ size ≠ 0 ∧ k ≠ 0 ∧
      f = ⟨List.replicate size false, (List.range k).map paletteStrategy, 0⟩ := by
  constructor
  · intro h
    by_cases hs : size = 0
    · simp [new, hs] at h
    · by_cases hk : k = 0
      · simp [new, hs, hk] at h
      · refine ⟨hs, hk, ?_⟩
        simp [new, hs, hk] at h
        exact h.symm
  · rintro ⟨hs, hk, rfl⟩
    simp [new, hs, hk]

lemma getD_replicate_false (n i : Nat) :
    (List.replicate n false).getD i false = false := by
  rw [List.getD_eq_getElem?_getD, List.getElem?_replicate]
  split <;> rfl

lemma item_count_applyOps_inserts (H : HashModel α) (f : BloomFilter α)
    (ops : List (Op α)) (hall : ops.all Op.isInsert = true)
    (hlt : f.item_count + ops.length < 2 ^ 64) :
    (applyOps H f ops).item_count = f.item_count + ops.length := by
  induction ops generalizing f with
  | nil => rfl
  | cons o t ih =>
    rw [List.all_cons, Bool.and_eq_true] at hall
    cases o with
    | insert w =>
      have hstep : (f.insert H w).item_count = f.item_count + 1 := by
        show (f.item_count + 1) % 2 ^ 64 = f.item_count + 1
        apply Nat.mod_eq_of_lt
        simp only [List.length_cons] at hlt
        omega
      have := ih (f.insert H w) hall.2
        (by rw [hstep]; simp only [List.length_cons] at hlt ⊢; omega)
      show (applyOps H (f.insert H w) t).item_count = _
      rw [this, hstep, List.length_cons]
      omega
    | clear => simp [Op.isInsert] at hall

lemma buckets_length_applyOps (H : HashModel α) (f : BloomFilter α)
    (ops : List (Op α)) :
    (applyOps H f ops).buckets.length = f.buckets.length := by
  induction ops generalizing f with
  | nil => rfl
  | cons o t ih =>
    cases o with
    | insert w =>
      show (applyOps H (f.insert H w) t).buckets.length = _
      rw [ih, buckets_length_insert]
    | clear =>
      show (applyOps H f.clear t).buckets.length = _
      rw [ih]
      exact List.length_replicate ..

end BloomFilter

lemma foldBytes_lt (bytes : List Nat) : foldBytes bytes < 2 ^ 64 := by
  have aux : ∀ (bs : List Nat) (acc : Nat), acc < 2 ^ 64 →
      bs.foldl (fun acc x => ((acc <<< 8) % 2 ^ 64) ||| x % 256) acc < 2 ^ 64 := by
    intro bs
    induction bs with
    | nil => intro acc h; exact h
    | cons x t ih =>
      intro acc _
      apply ih
      apply Nat.or_lt_two_pow
      · exact Nat.mod_lt _ (by norm_num)
      · exact lt_trans (Nat.mod_lt _ (by norm_num)) (by norm_num)
  exact aux _ 0 (by norm_num)

lemma hash_with_algorithm_lt (H : HashModel α) (obj : α) (a : HashAlgorithm) :
    hash_with_algorithm H obj a < 2 ^ 64 := by
  cases a with
  | Default => exact Nat.mod_lt _ (by norm_num)
  | MD5 => exact foldBytes_lt _
  | SHA256 => exact foldBytes_lt _

lemma one_sub_exp_rpow_mono (m k x y : ℝ) (hm : 0 < m) (hk : 0 ≤ k)
    (hx : 0 ≤ x) (hxy : x ≤ y) :
    (1 - Real.exp ((-1 * x) / m)) ^ k ≤ (1 - Real.exp ((-1 * y) / m)) ^ k := by
  have hex : ∀ z : ℝ, 0 ≤ z → Real.exp ((-1 * z) / m) ≤ 1 := by
    intro z hz
    apply Real.exp_le_one_iff.mpr
    apply div_nonpos_iff.mpr
    right
    constructor <;> linarith
  apply Real.rpow_le_rpow _ _ hk
  · have := hex x hx
    linarith
  · have hmono : Real.exp ((-1 * y) / m) ≤ Real.exp ((-1 * x) / m) := by
      apply Real.exp_le_exp.mpr
      apply (div_le_div_iff_of_pos_right hm).mpr
      linarith
    linarith

/-- Claim C1 (no false negatives): for every validly constructed filter and
every value `v`, once `insert v` has run, any further sequence of mutating
calls that contains no `clear` leaves `check v = true`. -/
theorem no_false_negatives (H : HashModel α) (f : BloomFilter α) (v : α)
    (ops : List (Op α)) (hpos : 0 < f.buckets.length) (hnc : Op.clear ∉ ops) :
    (applyOps H (f.insert H v) ops).check H v = true := by
  rw [BloomFilter.check_eq_true_iff]
  exact BloomFilter.covered_applyOps H _ v ops
    (BloomFilter.covered_insert_self H f v hpos) hnc

/-- Concrete instance of claim C1: insert 3, then insert 9; `check 3` is
still true. -/
theorem no_false_negatives_witness :
    (applyOps trivModel
      ((⟨List.replicate 5 false, [.Default, .MD5, .SHA256], 0⟩ :
        BloomFilter Nat).insert trivModel 3)
      [Op.insert 9]).check trivModel 3 = true :=
  no_false_negatives trivModel _ 3 [Op.insert 9] (by decide) (by decide)

/-- Claim C2 (unknown-by-default): a filter freshly returned by `new` answers
`check v = false` for every value `v`. -/
theorem fresh_check_false (H : HashModel α) (size k : Nat) (f : BloomFilter α)
    (v : α) (h : BloomFilter.new size k = .ok f) : f.check H v = false := by
  obtain ⟨hs, hk, rfl⟩ := BloomFilter.new_ok_iff.mp h
  rw [Bool.eq_false_iff]
  intro hc
  rw [BloomFilter.check_eq_true_iff] at hc
  have hmem : BloomFilter.paletteStrategy 0 ∈
      (List.range k).map BloomFilter.paletteStrategy :=
    List.mem_map.mpr ⟨0, List.mem_range.mpr (Nat.pos_of_ne_zero hk), rfl⟩
  have := hc _ hmem
  rw [BloomFilter.getD_replicate_false] at this
  exact Bool.false_ne_true this

/-- Concrete instance of claim C2: the filter made by `new 3 2` answers
false on the value 0. -/
theorem fresh_check_false_witness :
    (⟨List.replicate 3 false, [.Default, .MD5], 0⟩ :
      BloomFilter Nat).check trivModel 0 = false :=
  fresh_check_false trivModel 3 2 _ 0 (by decide)

/-- Counterexample to claim C3 as stated: at `size = 0, hash_count = 0` the
size check fires first, so `new` returns `InvalidSize`, not the
`InvalidHashCount` the claim's `hash_count == 0` clause demands. -/
theorem new_zero_zero_returns_invalid_size :
    BloomFilter.new (α := Nat) 0 0 = .error .InvalidSize ∧
    BloomFilter.new (α := Nat) 0 0 ≠ .error .InvalidHashCount := by
  decide

/-- Claim C3 as amended (construction validation): `new` returns
`InvalidSize` whenever `size = 0`; it returns `InvalidHashCount` when
`size ≥ 1` and `hash_count = 0` (the size check takes precedence); and for
`size ≥ 1`, `hash_count ≥ 1` it succeeds with every bucket unoccupied, the
requested bucket count, and `item_count = 0`. -/
theorem construction_validation (size k : Nat) :
    (size = 0 → BloomFilter.new (α := α) size k = .error .InvalidSize) ∧
    (1 ≤ size → k = 0 →
      BloomFilter.new (α := α) size k = .error .InvalidHashCount) ∧
    (1 ≤ size → 1 ≤ k → ∃ f : BloomFilter α, BloomFilter.new size k = .ok f ∧
      (∀ i, f.buckets.getD i false = false) ∧
      f.buckets.length = size ∧ f.item_count = 0) := by
  refine ⟨?_, ?_, ?_⟩
  · intro hs
    simp [BloomFilter.new, hs]
  · intro hs hk
    have hs' : size ≠ 0 := by omega
    simp [BloomFilter.new, hs', hk]
  · intro hs hk
    refine ⟨⟨List.replicate size false,
        (List.range k).map BloomFilter.paletteStrategy, 0⟩,
      BloomFilter.new_ok_iff.mpr ⟨by omega, by omega, rfl⟩, ?_, ?_, rfl⟩
    · intro i
      exact BloomFilter.getD_replicate_false _ _
    · exact List.length_replicate ..

/-- Concrete instance of amended claim C3: `new 2 3` succeeds with a zeroed
two-bucket store and a zero counter. -/
theorem construction_validation_witness :
    ∃ f : BloomFilter Nat, BloomFilter.new 2 3 = .ok f ∧
      (∀ i, f.buckets.getD i false = false) ∧
      f.buckets.length = 2 ∧ f.item_count = 0 :=
  (construction_validation 2 3).2.2 (by decide) (by decide)

/-- Claim C4 (counter accuracy): after a sequence of mutating calls that are
all insertions (fewer than `2^64` of them) on a freshly constructed filter,
`len` is the number of calls and `is_empty` is true exactly when that number
is zero. -/
theorem counter_accuracy (H : HashModel α) (size k : Nat) (f : BloomFilter α)
    (ops : List (Op α)) (h : BloomFilter.new size k = .ok f)
    (hall : ops.all Op.isInsert = true) (hlt : ops.length < 2 ^ 64) :
    (applyOps H f ops).len = ops.length ∧
    (applyOps H f ops).is_empty = (ops.length == 0) := by
  obtain ⟨hs, hk, rfl⟩ := BloomFilter.new_ok_iff.mp h
  have hic := BloomFilter.item_count_applyOps_inserts H
    ⟨List.replicate size false, (List.range k).map BloomFilter.paletteStrategy, 0⟩
    ops hall (by simpa using hlt)
  constructor
  · show (applyOps H _ ops).item_count = ops.length
    rw [hic]
    simp
  · show ((applyOps H _ ops).item_count == 0) = (ops.length == 0)
    rw [hic]
    simp

/-- Concrete instance of claim C4: two insertions on a fresh filter give
`len = 2` and `is_empty = false`. -/
theorem counter_accuracy_witness :
    (applyOps trivModel (⟨List.replicate 4 false, [.Default, .MD5], 0⟩ :
        BloomFilter Nat) [Op.insert 1, Op.insert 2]).len
      = [Op.insert (1 : Nat), Op.insert 2].length ∧
    (applyOps trivModel (⟨List.replicate 4 false, [.Default, .MD5], 0⟩ :
        BloomFilter Nat) [Op.insert 1, Op.insert 2]).is_empty
      = ([Op.insert (1 : Nat), Op.insert 2].length == 0) :=
  counter_accuracy trivModel 4 2 _ [Op.insert 1, Op.insert 2]
    (by decide) (by decide) (by decide)

/-- Claim C5 (clear resets fully and is idempotent): after `clear` every
bucket is unoccupied and the counter is zero, so `len = 0` and
`is_empty = true`; a second `clear` leaves the state unchanged. -/
theorem clear_resets_fully (f : BloomFilter α) :
    (∀ i, f.clear.buckets.getD i false = false) ∧
    f.clear.item_count = 0 ∧ f.clear.len = 0 ∧ f.clear.is_empty = true ∧
    f.clear.clear = f.clear := by
  refine ⟨fun i => BloomFilter.getD_replicate_false _ _, rfl, rfl, rfl, ?_⟩
  simp [BloomFilter.clear]

/-- Claim C6 (totality of post-construction operations): the 64-bit hash is
below `2^64`, the bucket index used by `insert` and `check` is exactly that
hash reduced modulo the bit-store length, and with at least one bucket the
index is strictly below the bit-store length, so no access is out of
range. -/
theorem bloom_hash_in_range (H : HashModel α) (f : BloomFilter α) (v : α)
    (a : HashAlgorithm) (hpos : 0 < f.buckets.length) :
    hash_with_algorithm H v a < 2 ^ 64 ∧
    f.bloom_hash H v a = hash_with_algorithm H v a % f.buckets.length ∧
    f.bloom_hash H v a < f.buckets.length :=
  ⟨hash_with_algorithm_lt H v a, rfl, Nat.mod_lt _ hpos⟩

/-- Concrete instance of claim C6 on a five-bucket filter and the SHA-256
strategy. -/
theorem bloom_hash_in_range_witness :
    hash_with_algorithm trivModel 3 .SHA256 < 2 ^ 64 ∧
    (⟨List.replicate 5 false, [.Default], 0⟩ :
        BloomFilter Nat).bloom_hash trivModel 3 .SHA256
      = hash_with_algorithm trivModel 3 .SHA256 %
        (⟨List.replicate 5 false, [.Default], 0⟩ :
          BloomFilter Nat).buckets.length ∧
    (⟨List.replicate 5 false, [.Default], 0⟩ :
        BloomFilter Nat).bloom_hash trivModel 3 .SHA256
      < (⟨List.replicate 5 false, [.Default], 0⟩ :
          BloomFilter Nat).buckets.length :=
  bloom_hash_in_range trivModel _ 3 .SHA256 (by decide)

/-- Claim C7 (hash determinism): `bloom_hash` is a pure function of the
value's hash content, the strategy, and the bit-store length — it does not
depend on bucket contents, the insertion counter, or any per-call state, so
two calls with the same value and filter parameters agree. -/
theorem bloom_hash_deterministic (H : HashModel α) (f g : BloomFilter α)
    (v w : α) (a : HashAlgorithm) (hm : f.buckets.length = g.buckets.length)
    (hv : H.defaultHash v = H.defaultHash w) :
    f.bloom_hash H v a = g.bloom_hash H w a := by
  unfold BloomFilter.bloom_hash
  rw [hm]
  congr 1
  cases a <;> simp [hash_with_algorithm, hv]

/-- Concrete instance of claim C7: two filters of equal capacity but
different bucket contents and counters give the same index for the value
9 under the MD5 strategy. -/
theorem bloom_hash_deterministic_witness :
    (⟨[false, true], [.Default], 7⟩ :
        BloomFilter Nat).bloom_hash trivModel 9 .MD5
      = (⟨[true, false], [.MD5, .SHA256], 0⟩ :
        BloomFilter Nat).bloom_hash trivModel 9 .MD5 :=
  bloom_hash_deterministic trivModel _ _ 9 9 .MD5 (by decide) (by decide)

/-- Claim C8 (capacity stability): `capacity` equals the `size` argument of
`new` and is unchanged by any sequence of mutating calls. -/
theorem capacity_stable (H : HashModel α) (size k : Nat) (f : BloomFilter α)
    (ops : List (Op α)) (h : BloomFilter.new size k = .ok f) :
    f.capacity = size ∧ (applyOps H f ops).capacity = size := by
  obtain ⟨hs, hk, rfl⟩ := BloomFilter.new_ok_iff.mp h
  constructor
  · exact List.length_replicate ..
  · show (applyOps H _ ops).buckets.length = size
    rw [BloomFilter.buckets_length_applyOps]
    exact List.length_replicate ..

/-- Concrete instance of claim C8: after an insert, a clear and another
insert, the capacity of a `new 7 1` filter is still 7. -/
theorem capacity_stable_witness :
    (⟨List.replicate 7 false, [.Default], 0⟩ : BloomFilter Nat).capacity = 7 ∧
    (applyOps trivModel (⟨List.replicate 7 false, [.Default], 0⟩ :
        BloomFilter Nat) [Op.insert 5, Op.clear, Op.insert 6]).capacity = 7 :=
  capacity_stable trivModel 7 1 _ [Op.insert 5, Op.clear, Op.insert 6]
    (by decide)

/-- Claim C9 (error-chance monotonicity): with the bit-store length and the
strategy list fixed, `error_chance` is non-decreasing in `item_count`
(as long as the 64-bit product `hash_count * item_count` does not wrap). -/
theorem error_chance_monotone (f g : BloomFilter α)
    (hm : f.buckets.length = g.buckets.length)
    (ha : f.hash_algorithms = g.hash_algorithms)
    (hpos : 0 < g.buckets.length)
    (hle : f.item_count ≤ g.item_count)
    (hw : g.hash_algorithms.length * g.item_count < 2 ^ 64) :
    f.error_chance ≤ g.error_chance := by
  simp only [BloomFilter.error_chance]
  rw [ha, hm]
  have h1 : g.hash_algorithms.length * f.item_count ≤
      g.hash_algorithms.length * g.item_count :=
    Nat.mul_le_mul_left _ hle
  rw [Nat.mod_eq_of_lt (lt_of_le_of_lt h1 hw), Nat.mod_eq_of_lt hw]
  exact one_sub_exp_rpow_mono _ _ _ _ (Nat.cast_pos.mpr hpos)
    (Nat.cast_nonneg _) (Nat.cast_nonneg _) (Nat.cast_le.mpr h1)

/-- Concrete instance of claim C9: with three buckets and two strategies,
the estimate at one item is at most the estimate at three items. -/
theorem error_chance_monotone_witness :
    (⟨List.replicate 3 false, [.Default, .MD5], 1⟩ :
        BloomFilter Nat).error_chance
      ≤ (⟨List.replicate 3 false, [.Default, .MD5], 3⟩ :
        BloomFilter Nat).error_chance :=
  error_chance_monotone _ _ rfl rfl (by decide) (by decide) (by decide)

/-- Claim C10 (check monotonicity under insertion): if `check w` is true
then it remains true after inserting any value `v`; insertion only sets
buckets, never unsets one. -/
theorem check_monotone_under_insert (H : HashModel α) (f : BloomFilter α)
    (v w : α) (hpos : 0 < f.buckets.length) (h : f.check H w = true) :
    (f.insert H v).check H w = true := by
  rw [BloomFilter.check_eq_true_iff] at h ⊢
  exact BloomFilter.covered_insert H f w v h

/-- Concrete instance of claim C10: after inserting 3, `check 3` is true and
stays true after also inserting 9. -/
theorem check_monotone_under_insert_witness :
    (((⟨List.replicate 5 false, [.Default, .MD5], 0⟩ :
        BloomFilter Nat).insert trivModel 3).insert trivModel 9).check
      trivModel 3 = true :=
  check_monotone_under_insert trivModel _ 9 3 (by decide) (by decide)
